import Mathlib

/-!
A verification development for the kwil-db engine interpreter
(`ThreadSafeInterpreter`, `recursiveInterpreter`, `baseInterpreter.call`,
`baseInterpreter.execute`, `funcDefToExecutable`, `isValidVarName`, and the
extension-merge step of `NewInterpreter`).

The Go code is shallowly embedded: the mutable per-call state (the log buffer,
the variable scope, and the observation traces used to state theorems) is
threaded through an explicit state monad `M`; fallible Go functions return
`Except`.  External collaborators that the interpreter only consumes (the SQL
database handle, the statement parser, the scalar-function descriptors, host
value conversion) are modelled as explicit data so that theorems can quantify
over them.
-/

/-- Runtime data-type tags carried by every `Value` (engine type system,
restricted to the scalar types exercised here). -/
inductive DataType : Type
  | intT
  | textT
  | boolT
deriving DecidableEq, Repr

/-- Raw (untyped) runtime data, the result of `Value.RawValue()`. -/
inductive RawVal : Type
  | nullV
  | intV (n : Int)
  | textV (s : String)
  | boolV (b : Bool)
deriving DecidableEq, Repr

/-- A typed runtime `Value`: a data-type tag plus a raw value. -/
structure Value : Type where
  type : DataType
  raw : RawVal
deriving DecidableEq, Repr

/-- Host-language (Go `any`) values handed to `call`/`execute`;
`hUnsupported` stands for any host value with no supported mapping. -/
inductive HostVal : Type
  | hInt (n : Int)
  | hText (s : String)
  | hBool (b : Bool)
  | hUnsupported (tag : String)
deriving DecidableEq, Repr

/-- The error conditions surfaced by the embedded code.  Distinct Go error
values (and distinct `fmt.Errorf` messages) map to distinct constructors, so
the failure classes the spec distinguishes are distinguishable here. -/
inductive EngineErr : Type
  | notAccessModer
  | namespaceNotFound (ns : String)
  | unknownAction (action ns : String)
  | cannotCallDirectly (action : String)
  | valueConversion (tag : String)
  | invalidVarName (msg : String)
  | parseError (msg : String)
  | noStatements (stmt : String)
  | validateArgsErr (msg : String)
  | pgFormatErr (msg : String)
  | queryErr (msg : String)
  | rowCount (n : Nat)
  | goPanic (msg : String)
  | stmtErr (msg : String)
  | sinkErr (msg : String)
deriving DecidableEq, Repr

/-- Modelled from the spec: the database handle's declared access mode
(`sql.ReadWrite` / `sql.ReadOnly`; the `sql` package is external). -/
inductive AccessMode : Type
  | readWrite
  | readOnly
deriving DecidableEq, Repr

/-- Modelled from the spec: the opaque database handle (`sql.DB`).
`accessModer` says whether the handle implements `sql.AccessModer`;
`queryRes` gives the number of result rows a query produces (or a query
error); `queryScanRaw` gives the raw value the single result row scans into
the typed zero-value container passed by `funcDefToExecutable`. -/
structure Db : Type where
  accessModer : Bool
  accessMode : AccessMode
  queryRes : String → Except String Nat
  queryScanRaw : String → RawVal

/-- The caller-facing result row (`common.Row`): parallel arrays of column
names, data types and raw values. -/
structure CommonRow : Type where
  ColumnNames : List String
  ColumnTypes : List DataType
  Values : List RawVal
deriving DecidableEq, Repr

/-- The interpreter-internal row type (`row` in the Go source). -/
structure row : Type where
  columns : List String
  Values : List Value

/-- `rowToCommonRow` converts a `row` to a `common.Row`. -/
def rowToCommonRow (r : row) : CommonRow :=
  { ColumnNames := r.columns
    ColumnTypes := r.Values.map Value.type
    Values := r.Values.map Value.raw }

/-- Modelled from the spec: `NewValue` converts a host value to a typed
`Value` and fails on an unsupported host type (the conversion lives outside
the included source). -/
def NewValue : HostVal → Except EngineErr Value
  | HostVal.hInt n => Except.ok { type := DataType.intT, raw := RawVal.intV n }
  | HostVal.hText s => Except.ok { type := DataType.textT, raw := RawVal.textV s }
  | HostVal.hBool b => Except.ok { type := DataType.boolT, raw := RawVal.boolV b }
  | HostVal.hUnsupported tag => Except.error (EngineErr.valueConversion tag)

/-- Modelled from the spec: `NewZeroValue` produces the zero `Value` of a
data type (used by `funcDefToExecutable` as the scan target). -/
def NewZeroValue (t : DataType) : Except EngineErr Value :=
  match t with
  | DataType.intT => Except.ok { type := DataType.intT, raw := RawVal.intV 0 }
  | DataType.textT => Except.ok { type := DataType.textT, raw := RawVal.textV "" }
  | DataType.boolT => Except.ok { type := DataType.boolT, raw := RawVal.boolV false }

/-- The per-invocation mutable state threaded through the embedding:
the execution context's log buffer (`*executionContext.logs`), the variable
scope bindings, plus two observation traces (queries sent to the database
handle, rows delivered to an observing sink) used to state theorems. -/
structure EffState : Type where
  logs : List String
  vars : List (String × Value)
  queries : List String
  sunk : List CommonRow
deriving DecidableEq, Repr

/-- The state-and-error monad the embedded code runs in. -/
def M (α : Type) : Type := EffState → Except EngineErr α × EffState

instance : Monad M where
  pure a := fun s => (Except.ok a, s)
  bind m f := fun s =>
    match m s with
    | (Except.ok a, s') => f a s'
    | (Except.error e, s') => (Except.error e, s')

theorem M.bind_apply {α β : Type} (m : M α) (f : α → M β) (s : EffState) :
    (m >>= f) s =
      match m s with
      | (Except.ok a, s') => f a s'
      | (Except.error e, s') => (Except.error e, s') := rfl

theorem M.pure_apply {α : Type} (a : α) (s : EffState) :
    (pure a : M α) s = (Except.ok a, s) := rfl

/-- Append one line to the current execution context's log buffer. -/
def appendLog (msg : String) : M Unit := fun s =>
  (Except.ok (), { s with logs := s.logs ++ [msg] })

/-- Append several lines to the current execution context's log buffer
(`*r.logs = append(*r.logs, res.Logs...)`). -/
def appendLogs (msgs : List String) : M Unit := fun s =>
  (Except.ok (), { s with logs := s.logs ++ msgs })

/-- Modelled from the spec: bind a variable in the current Scope
(`executionContext.setVariable`, outside the included source). -/
def setVariable (name : String) (v : Value) : M Unit := fun s =>
  (Except.ok (), { s with vars := (name, v) :: (s.vars.filter (fun kv => kv.1 ≠ name)) })

/-- An observing row sink used only in theorem statements: it records every
row it receives in the `sunk` trace. -/
def observeSink (r : CommonRow) : M Unit := fun s =>
  (Except.ok (), { s with sunk := s.sunk ++ [r] })

/-- Association-list lookup, embedding Go map indexing. -/
def alLookup {α : Type} : List (String × α) → String → Option α
  | [], _ => none
  | (k, v) :: rest, key => if k = key then some v else alLookup rest key

/-- Association-list erase (helper for `alInsert`). -/
def alErase {α : Type} : List (String × α) → String → List (String × α)
  | [], _ => []
  | (k, v) :: rest, key => if k = key then alErase rest key else (k, v) :: alErase rest key

/-- Association-list insert-or-replace, embedding Go map assignment `m[k] = v`. -/
def alInsert {α : Type} (m : List (String × α)) (key : String) (v : α) : List (String × α) :=
  (key, v) :: alErase m key

/-- `strings.ToLower` (structurally computable ASCII case folding; the
identifiers the engine normalizes are ASCII). -/
def strToLower (s : String) : String := String.mk (s.data.map Char.toLower)

/-- `strings.HasPrefix(s, "$")`: does the string start with the `$` sigil? -/
def strHasDollarSigil (s : String) : Bool :=
  match s.data with
  | c :: _ => c = '$'
  | [] => false

/-- `s[1:]`: the remainder of the string after the one-byte `$` sigil
(structurally computable form of `String.drop s 1`). -/
def strDropSigil (s : String) : String := String.mk (s.data.drop 1)

/-- The executable's type tag: `Function` (built-in scalar), `Action`
(user-defined), `Precompile` (extension method). -/
inductive executableType : Type
  | function
  | action
  | precompile
deriving DecidableEq, Repr

/-- The per-call execution context data visible to an executable
(`executionContext` minus the mutable buffers, which live in `M`). -/
structure ExecCtxInfo : Type where
  db : Db
  scopeNamespace : String
  isTopLevel : Bool
  canMutateState : Bool

/-- The invocation contract of an executable: execution-context data, typed
arguments, and a row-sink callback. -/
def ExecFn : Type := ExecCtxInfo → List Value → (row → M Unit) → M Unit

/-- A callable unit (`executable` in the Go source). -/
structure executable : Type where
  Name : String
  Func : ExecFn
  «Type» : executableType

/-- Modelled from the spec: a table of the catalog (`engine.Table` is
external; only identity matters here). -/
structure Table : Type where
  name : String
  columns : List String
deriving DecidableEq, Repr

/-- A namespace: tables plus the executable registry (`namespace` in the Go
source; renamed because `namespace` is a Lean keyword). -/
structure Namespace : Type where
  availableFunctions : List (String × executable)
  tables : List (String × Table)
  namespaceType : String
  methods : List (String × executable)

/-- `namespaceType` constants. -/
def namespaceTypeUser : String := "USER"

def namespaceTypeSystem : String := "SYSTEM"

def namespaceTypeExtension : String := "EXTENSION"

/-- The per-namespace permission registry (`accessController`; its
construction from persisted grants is outside the included source, only
`registerNamespace` is needed here). -/
structure accessController : Type where
  registered : List String
deriving DecidableEq, Repr

def accessController.registerNamespace (ac : accessController) (name : String) : accessController :=
  { registered := ac.registered ++ [name] }

/-- The engine (`baseInterpreter`): the namespace catalog plus the access
controller. -/
structure baseInterpreter : Type where
  namespaces : List (String × Namespace)
  accessCtrl : accessController

def DefaultNamespace : String := "main"

def infoNamespace : String := "info"

/-- `newExecCtx` creates a new execution context: it requires the database
handle to implement `sql.AccessModer` and derives `canMutateState` from the
access mode.  The fresh log buffer and scope it allocates are materialised by
`invokeExec` / `withFreshCtx`. -/
def newExecCtx (db : Db) (ns : String) (toplevel : Bool) : Except EngineErr ExecCtxInfo :=
  if !db.accessModer then Except.error EngineErr.notAccessModer
  else Except.ok
    { db := db
      scopeNamespace := ns
      isTopLevel := toplevel
      canMutateState := decide (db.accessMode = AccessMode.readWrite) }

/-- Convert each host argument in order, failing at the first unsupported one
(the `argVals` loop of `baseInterpreter.call`). -/
def convertArgs : List HostVal → Except EngineErr (List Value)
  | [] => Except.ok []
  | a :: rest =>
    match NewValue a with
    | Except.error e => Except.error e
    | Except.ok v =>
      match convertArgs rest with
      | Except.error e => Except.error e
      | Except.ok vs => Except.ok (v :: vs)

/-- Run an executable's function in the execution context created for this
call: a fresh log buffer and scope (the Go context's own buffers), restored
afterwards; the returned `CallResult.Logs` is the context's final buffer. -/
def invokeExec (ex : executable) (ectx : ExecCtxInfo) (argVals : List Value)
    (resultFn : CommonRow → M Unit) : M (List String) := fun s =>
  match ex.Func ectx argVals (fun r => resultFn (rowToCommonRow r)) { s with logs := [], vars := [] } with
  | (Except.ok _, s') => (Except.ok s'.logs, { s' with logs := s.logs, vars := s.vars })
  | (Except.error e, s') => (Except.error e, { s' with logs := s.logs, vars := s.vars })

/-- The result bundle of a call (`common.CallResult`). -/
structure CallResult : Type where
  Logs : List String
deriving DecidableEq, Repr

/-- `baseInterpreter.call`: substitutes a no-op sink for a nil one,
normalizes the namespace (empty → default) and the action to lower case,
creates the execution context, resolves the namespace, resolves the
executable, rejects `Function`-typed executables, converts the arguments and
invokes the executable, returning the accumulated log buffer. -/
def baseInterpreter.call (i : baseInterpreter) (db : Db) (ns act : String)
    (args : List HostVal) (resultFn : Option (CommonRow → M Unit)) (toplevel : Bool) :
    M CallResult :=
  let fn : CommonRow → M Unit := resultFn.getD (fun _ => pure ())
  let ns0 := if ns = "" then DefaultNamespace else ns
  let nsName := strToLower ns0
  let actName := strToLower act
  fun s =>
    match newExecCtx db nsName toplevel with
    | Except.error e => (Except.error e, s)
    | Except.ok ectx =>
      match alLookup i.namespaces nsName with
      | none => (Except.error (EngineErr.namespaceNotFound nsName), s)
      | some nsObj =>
        match alLookup nsObj.availableFunctions actName with
        | none => (Except.error (EngineErr.unknownAction actName nsName), s)
        | some ex =>
          match ex.«Type» with
          | executableType.function => (Except.error (EngineErr.cannotCallDirectly actName), s)
          | executableType.action =>
            match convertArgs args with
            | Except.error e => (Except.error e, s)
            | Except.ok argVals =>
              ((invokeExec ex ectx argVals fn) >>= fun lgs => pure { Logs := lgs }) s
          | executableType.precompile =>
            match convertArgs args with
            | Except.error e => (Except.error e, s)
            | Except.ok argVals =>
              ((invokeExec ex ectx argVals fn) >>= fun lgs => pure { Logs := lgs }) s

/-- A planned statement (`stmtFunc`): given the execution context and a row
callback, execute the statement.  Statement planning (`parse` +
`interpreterPlanner`) is consumed as a black box. -/
def Stmt : Type := ExecCtxInfo → (row → M Unit) → M Unit

/-- Execute the planned statements in order, aborting at the first failure;
every produced row is converted by `rowToCommonRow` before reaching the
caller's sink. -/
def runStmts : List Stmt → ExecCtxInfo → (CommonRow → M Unit) → M Unit
  | [], _, _ => pure ()
  | stmt :: rest, ectx, fn =>
    (stmt ectx (fun r => fn (rowToCommonRow r))) >>= fun _ => runStmts rest ectx fn

/-- Run a computation in a fresh execution context (fresh log buffer and
scope, restored afterwards), as `newExecCtx` allocates for each
`execute` invocation. -/
def withFreshCtx {α : Type} (m : M α) : M α := fun s =>
  match m { s with logs := [], vars := [] } with
  | (r, s') => (r, { s' with logs := s.logs, vars := s.vars })

def MAX_IDENT_NAME_LENGTH : Nat := 32

/-- First-character class of the identifier rule `^[A-Za-z][A-Za-z0-9_]*$`. -/
def isIdentHeadChar (c : Char) : Bool :=
  ('A' ≤ c && c ≤ 'Z') || ('a' ≤ c && c ≤ 'z')

/-- Tail-character class of the identifier rule. -/
def isIdentTailChar (c : Char) : Bool :=
  isIdentHeadChar c || ('0' ≤ c && c ≤ '9') || c = '_'

/-- `identRegexp.MatchString`: does the string match `^[A-Za-z][A-Za-z0-9_]*$`? -/
def identRegexpMatch (s : String) : Bool :=
  match s.data with
  | [] => false
  | c :: cs => isIdentHeadChar c && cs.all isIdentTailChar

/-- `isValidVarName` checks if a string is a valid variable name: it must
start with `$`, the remainder must match `identRegexp`, and the remainder
must not exceed `MAX_IDENT_NAME_LENGTH`. -/
def isValidVarName (s : String) : Except EngineErr Unit :=
  if !strHasDollarSigil s then
    Except.error (EngineErr.invalidVarName "variable name must start with $")
  else if !identRegexpMatch (strDropSigil s) then
    Except.error (EngineErr.invalidVarName "variable name must only contain letters, numbers, and underscores")
  else if (strDropSigil s).length > MAX_IDENT_NAME_LENGTH then
    Except.error (EngineErr.invalidVarName "variable name too long")
  else Except.ok ()

/-- The name normalisation applied to each bound parameter key: lower-case,
then prefix the `$` sigil if missing. -/
def normalizeParamName (key : String) : String :=
  let name := strToLower key
  if strHasDollarSigil name then name else "$" ++ name

/-- The parameter-binding loop of `baseInterpreter.execute`: for each entry
(in the order given), convert the host value, normalise and validate the
name, and bind it in the scope; the first failure aborts. -/
def bindParams : List (String × HostVal) → M Unit
  | [] => pure ()
  | (key, hv) :: rest => fun s =>
    match NewValue hv with
    | Except.error e => (Except.error e, s)
    | Except.ok val =>
      match isValidVarName (normalizeParamName key) with
      | Except.error e => (Except.error e, s)
      | Except.ok _ => ((setVariable (normalizeParamName key) val) >>= fun _ => bindParams rest) s

/-- Modelled from the spec: `order.OrderMap` returns a Go map's entries
sorted by key, making the binding order independent of map iteration order. -/
def sortByKey {α : Type} (ps : List (String × α)) : List (String × α) :=
  ps.insertionSort (fun a b => a.1 ≤ b.1)

/-- `baseInterpreter.execute`: substitutes a no-op sink for a nil one, parses
the statement text, rejects empty statement lists, creates the execution
context bound to the default namespace, binds the parameters in sorted-key
order, then executes each statement in order. -/
def baseInterpreter.execute (i : baseInterpreter)
    (pparse : String → Except String (List Stmt)) (db : Db) (statement : String)
    (params : List (String × HostVal)) (resultFn : Option (CommonRow → M Unit))
    (toplevel : Bool) : M Unit :=
  let fn : CommonRow → M Unit := resultFn.getD (fun _ => pure ())
  fun s =>
    match pparse statement with
    | Except.error e => (Except.error (EngineErr.parseError e), s)
    | Except.ok ast =>
      if ast.isEmpty then (Except.error (EngineErr.noStatements statement), s)
      else
        match newExecCtx db DefaultNamespace toplevel with
        | Except.error e => (Except.error e, s)
        | Except.ok ectx =>
          withFreshCtx ((bindParams (sortByKey params)) >>= fun _ => runStmts ast ectx fn) s

/-- The lock kind chosen by the concurrency wrapper. -/
inductive LockKind : Type
  | shared
  | exclusive
deriving DecidableEq, Repr

/-- The thread-safe wrapper around the engine. -/
structure ThreadSafeInterpreter : Type where
  i : baseInterpreter

/-- `ThreadSafeInterpreter.lock`: requires the database handle to implement
`sql.AccessModer`; `ReadOnly` takes the shared (read) lock, any other mode
takes the exclusive (write) lock. -/
def ThreadSafeInterpreter.lock (db : Db) : Except EngineErr LockKind :=
  if !db.accessModer then Except.error EngineErr.notAccessModer
  else if db.accessMode = AccessMode.readOnly then Except.ok LockKind.shared
  else Except.ok LockKind.exclusive

/-- Modelled from the spec: `sync.RWMutex` admission — two lock holders may
run concurrently exactly when both hold the shared (read) lock. -/
def locksCompatible : LockKind → LockKind → Bool
  | LockKind.shared, LockKind.shared => true
  | _, _ => false

/-- `ThreadSafeInterpreter.Call`: acquire the lock (aborting if the handle
exposes no access mode), then delegate to the engine's `call` as a top-level
invocation. -/
def ThreadSafeInterpreter.Call (t : ThreadSafeInterpreter) (db : Db) (ns act : String)
    (args : List HostVal) (resultFn : Option (CommonRow → M Unit)) : M CallResult := fun s =>
  match ThreadSafeInterpreter.lock db with
  | Except.error e => (Except.error e, s)
  | Except.ok _ => t.i.call db ns act args resultFn true s

/-- `ThreadSafeInterpreter.Execute`: acquire the lock, then delegate to the
engine's `execute` as a top-level invocation. -/
def ThreadSafeInterpreter.Execute (t : ThreadSafeInterpreter)
    (pparse : String → Except String (List Stmt)) (db : Db) (statement : String)
    (params : List (String × HostVal)) (resultFn : Option (CommonRow → M Unit)) :
    M Unit := fun s =>
  match ThreadSafeInterpreter.lock db with
  | Except.error e => (Except.error e, s)
  | Except.ok _ => t.i.execute pparse db statement params resultFn true s

/-- The non-locking reentrant handle given to extension instances. -/
structure recursiveInterpreter : Type where
  i : baseInterpreter

/-- `recursiveInterpreter.Call`: delegate to the engine's `call` without
locking (as a nested invocation), then append the nested call's logs to the
invoking call's buffer. -/
def recursiveInterpreter.Call (r : recursiveInterpreter) (db : Db) (ns act : String)
    (args : List HostVal) (resultFn : Option (CommonRow → M Unit)) : M CallResult :=
  (r.i.call db ns act args resultFn false) >>= fun res =>
  (appendLogs res.Logs) >>= fun _ => pure res

/-- `recursiveInterpreter.Execute`: delegate to the engine's `execute`
without locking. -/
def recursiveInterpreter.Execute (r : recursiveInterpreter)
    (pparse : String → Except String (List Stmt)) (db : Db) (statement : String)
    (params : List (String × HostVal)) (resultFn : Option (CommonRow → M Unit)) : M Unit :=
  r.i.execute pparse db statement params resultFn false

/-- A scalar built-in function descriptor
(`engine.ScalarFunctionDefinition`, external): argument-type validation
computing the return type, and the parameterized-expression formatter. -/
structure ScalarFunctionDefinition : Type where
  ValidateArgsFunc : List DataType → Except String DataType
  PGFormatFunc : List String → Except String String

/-- The positional parameter placeholders `$1 … $n` built by
`funcDefToExecutable`. -/
def paramPlaceholders (n : Nat) : List String :=
  (List.range n).map (fun i => "$" ++ toString (i + 1))

/-- `funcDefToExecutable` converts a Postgres scalar-function definition to
an executable: it validates argument types, special-cases `notice` (append
the single string argument to the context's log buffer, no query), otherwise
formats and executes a `SELECT` expression against the database handle,
requires exactly one result row, and yields the single scanned value of the
descriptor-computed return type. -/
def funcDefToExecutable (funcName : String) (funcDef : ScalarFunctionDefinition) :
    executable :=
  { Name := funcName
    «Type» := executableType.function
    Func := fun ectx args fn =>
      let params := paramPlaceholders args.length
      let argTypes := args.map Value.type
      fun s =>
        match funcDef.ValidateArgsFunc argTypes with
        | Except.error e => (Except.error (EngineErr.validateArgsErr e), s)
        | Except.ok retTyp =>
          if funcName = "notice" then
            match args with
            | ⟨_, RawVal.textV str⟩ :: _ => (Except.ok (), { s with logs := s.logs ++ [str] })
            | _ => (Except.error (EngineErr.goPanic "notice argument is not a string"), s)
          else
            match NewZeroValue retTyp with
            | Except.error e => (Except.error e, s)
            | Except.ok _zeroVal =>
              match funcDef.PGFormatFunc params with
              | Except.error e => (Except.error (EngineErr.pgFormatErr e), s)
              | Except.ok pgFormat =>
                let q := "SELECT " ++ pgFormat ++ ";"
                let s1 := { s with queries := s.queries ++ [q] }
                match ectx.db.queryRes q with
                | Except.error e => (Except.error (EngineErr.queryErr e), s1)
                | Except.ok iters =>
                  if iters ≠ 1 then (Except.error (EngineErr.rowCount iters), s1)
                  else
                    (fn { columns := [funcName]
                          Values := [{ type := retTyp, raw := ectx.db.queryScanRaw q }] }) s1 }

/-- The extension-merge step inside `NewInterpreter`: when a namespace
already exists under the extension's alias, every previously-loaded
executable overwrites the extension-provided one of the same name, and the
previously-loaded table set is carried forward unconditionally. -/
def mergeExistingNamespace (extNs existing : Namespace) : Namespace :=
  { extNs with
    availableFunctions :=
      existing.availableFunctions.foldl (fun m kv => alInsert m kv.1 kv.2) extNs.availableFunctions
    tables := existing.tables }

/-- One iteration of the extension-load loop of `NewInterpreter`: merge with
any previously-loaded namespace under the alias, register the alias. -/
def loadExtensionStep (nss : List (String × Namespace)) (ac : accessController)
    (aliasName : String) (extNs : Namespace) :
    List (String × Namespace) × accessController :=
  let ns' :=
    match alLookup nss aliasName with
    | some existing => mergeExistingNamespace extNs existing
    | none => extNs
  (alInsert nss aliasName ns', ac.registerNamespace aliasName)

/-- The extension-load loop of `NewInterpreter` over all persisted
extension instantiations (each given as alias plus the namespace produced by
`initializeExtension`). -/
def loadExtensions (nss : List (String × Namespace)) (ac : accessController)
    (exts : List (String × Namespace)) : List (String × Namespace) × accessController :=
  exts.foldl (fun acc kv => loadExtensionStep acc.1 acc.2 kv.1 kv.2) (nss, ac)

/-! ## Concrete fixtures used by witness theorems -/

/-- The empty initial effect state. -/
def s0 : EffState := { logs := [], vars := [], queries := [], sunk := [] }

/-- A read-write database handle whose queries all yield exactly one row
scanning the integer 7. -/
def cDbRW : Db :=
  { accessModer := true
    accessMode := AccessMode.readWrite
    queryRes := fun _ => Except.ok 1
    queryScanRaw := fun _ => RawVal.intV 7 }

/-- A read-only database handle. -/
def cDbRO : Db :=
  { accessModer := true
    accessMode := AccessMode.readOnly
    queryRes := fun _ => Except.ok 1
    queryScanRaw := fun _ => RawVal.intV 7 }

/-- A database handle that does not implement `sql.AccessModer`. -/
def cDbNoAM : Db :=
  { accessModer := false
    accessMode := AccessMode.readWrite
    queryRes := fun _ => Except.ok 1
    queryScanRaw := fun _ => RawVal.intV 7 }

/-- A read-write database handle whose queries yield two rows. -/
def cDbTwoRows : Db :=
  { accessModer := true
    accessMode := AccessMode.readWrite
    queryRes := fun _ => Except.ok 2
    queryScanRaw := fun _ => RawVal.intV 7 }

/-- Modelled from the spec: the descriptor of the built-in `notice`
(takes one text argument; it is special-cased before any formatting). -/
def cNoticeDef : ScalarFunctionDefinition :=
  { ValidateArgsFunc := fun ts =>
      if ts = [DataType.textT] then Except.ok DataType.textT
      else Except.error "invalid argument types"
    PGFormatFunc := fun _ => Except.error "notice is never formatted" }

/-- Modelled from the spec: the descriptor of a scalar built-in `abs`
(one int argument, int return, formatted as a Postgres call). -/
def cAbsDef : ScalarFunctionDefinition :=
  { ValidateArgsFunc := fun ts =>
      if ts = [DataType.intT] then Except.ok DataType.intT
      else Except.error "invalid argument types"
    PGFormatFunc := fun ps => Except.ok ("abs(" ++ String.intercalate ", " ps ++ ")") }

def noticeExec : executable := funcDefToExecutable "notice" cNoticeDef

def absExec : executable := funcDefToExecutable "abs" cAbsDef

/-- A user action that writes two log lines. -/
def logTwoExec : executable :=
  { Name := "logtwo"
    «Type» := executableType.action
    Func := fun _ _ _ => (appendLog "b1") >>= fun _ => appendLog "b2" }

/-- The `main` namespace fixture: the two built-ins plus one user action. -/
def mainNs : Namespace :=
  { availableFunctions := [("notice", noticeExec), ("abs", absExec), ("logtwo", logTwoExec)]
    tables := []
    namespaceType := namespaceTypeUser
    methods := [] }

/-- A concrete loaded interpreter with only the `main` namespace. -/
def cInterp : baseInterpreter :=
  { namespaces := [("main", mainNs)]
    accessCtrl := { registered := ["main"] } }

/-- An executable-level observing sink (records each produced row in the
`sunk` trace after the caller-facing conversion). -/
def obsRowSink (r : row) : M Unit := observeSink (rowToCommonRow r)

/-! ## Helper lemmas -/

theorem alLookup_alErase_ne {α : Type} (m : List (String × α)) (key k : String)
    (h : k ≠ key) : alLookup (alErase m key) k = alLookup m k := by
  induction m with
  | nil => rfl
  | cons kv rest ih =>
    obtain ⟨k0, v0⟩ := kv
    by_cases hk : k0 = key
    · subst hk
      simp only [alErase, if_pos rfl, alLookup, if_neg (fun hh : k0 = k => h (hh ▸ rfl))]
      exact ih
    · simp only [alErase, if_neg hk, alLookup]
      by_cases hk2 : k0 = k
      · simp [hk2]
      · simp only [if_neg hk2]
        exact ih

theorem alLookup_alInsert_self {α : Type} (m : List (String × α)) (key : String) (v : α) :
    alLookup (alInsert m key v) key = some v := by
  simp [alInsert, alLookup]

theorem alLookup_alInsert_ne {α : Type} (m : List (String × α)) (key k : String) (v : α)
    (h : k ≠ key) : alLookup (alInsert m key v) k = alLookup m k := by
  simp only [alInsert, alLookup, if_neg (fun hh : key = k => h (hh ▸ rfl))]
  exact alLookup_alErase_ne m key k h

theorem alLookup_foldl_insert_not_mem {α : Type} (ps : List (String × α))
    (base : List (String × α)) (k : String) (hk : k ∉ ps.map Prod.fst) :
    alLookup (ps.foldl (fun m kv => alInsert m kv.1 kv.2) base) k = alLookup base k := by
  induction ps generalizing base with
  | nil => rfl
  | cons kv rest ih =>
    rw [List.foldl_cons]
    have h1 : k ≠ kv.1 := by
      intro hh
      exact hk (by simp [hh])
    have h2 : k ∉ rest.map Prod.fst := by
      intro hh
      exact hk (by simp [hh])
    rw [ih _ h2]
    exact alLookup_alInsert_ne base kv.1 k kv.2 h1

theorem alLookup_foldl_insert_of_mem {α : Type} (ps : List (String × α))
    (base : List (String × α)) (k : String) (v : α)
    (hnd : (ps.map Prod.fst).Nodup) (hv : alLookup ps k = some v) :
    alLookup (ps.foldl (fun m kv => alInsert m kv.1 kv.2) base) k = some v := by
  induction ps generalizing base with
  | nil => exact absurd hv (by simp [alLookup])
  | cons kv rest ih =>
    obtain ⟨k0, v0⟩ := kv
    rw [List.foldl_cons]
    have hnd' : (rest.map Prod.fst).Nodup := (List.nodup_cons.mp (by simpa using hnd)).2
    by_cases hk : k0 = k
    · subst hk
      have hv0 : v0 = v := by
        simpa [alLookup] using hv
      subst hv0
      have hnotin : k0 ∉ rest.map Prod.fst := (List.nodup_cons.mp (by simpa using hnd)).1
      rw [alLookup_foldl_insert_not_mem rest _ k0 hnotin]
      exact alLookup_alInsert_self base k0 v0
    · have hv' : alLookup rest k = some v := by
        simpa [alLookup, if_neg hk] using hv
      exact ih _ hnd' hv'

instance sortKeyDecRel {α : Type} :
    DecidableRel (fun (a b : String × α) => a.1 ≤ b.1) :=
  fun a b => inferInstanceAs (Decidable (a.1 ≤ b.1))

instance sortKeyTotal {α : Type} : IsTotal (String × α) (fun a b => a.1 ≤ b.1) :=
  ⟨fun a b => le_total a.1 b.1⟩

instance sortKeyTrans {α : Type} : IsTrans (String × α) (fun a b => a.1 ≤ b.1) :=
  ⟨fun _ _ _ h₁ h₂ => le_trans h₁ h₂⟩

instance sortKeyLtAntisymm {α : Type} : IsAntisymm (String × α) (fun a b => a.1 < b.1) :=
  ⟨fun _ _ h₁ h₂ => (lt_asymm h₁ h₂).elim⟩

/-- Sorting by key is invariant under permutation of the input when the keys
are distinct (as they are for entries of a Go map): the binding order is
independent of host-map iteration order. -/
theorem sortByKey_eq_of_perm {α : Type} (l₁ l₂ : List (String × α))
    (h : l₁.Perm l₂) (hnd : (l₁.map Prod.fst).Nodup) :
    sortByKey l₁ = sortByKey l₂ := by
  have p₁ : (sortByKey l₁).Perm l₁ := List.perm_insertionSort _ l₁
  have p₂ : (sortByKey l₂).Perm l₂ := List.perm_insertionSort _ l₂
  have hp : (sortByKey l₁).Perm (sortByKey l₂) := p₁.trans (h.trans p₂.symm)
  have hnd₁ : ((sortByKey l₁).map Prod.fst).Nodup := ((p₁.map Prod.fst).nodup_iff).mpr hnd
  have hnd₂ : ((sortByKey l₂).map Prod.fst).Nodup :=
    ((p₂.map Prod.fst).nodup_iff).mpr ((h.map Prod.fst).nodup_iff.mp hnd)
  have hs₁ : List.Pairwise (fun (a b : String × α) => a.1 ≤ b.1) (sortByKey l₁) :=
    List.sorted_insertionSort _ l₁
  have hs₂ : List.Pairwise (fun (a b : String × α) => a.1 ≤ b.1) (sortByKey l₂) :=
    List.sorted_insertionSort _ l₂
  have hne₁ : List.Pairwise (fun (a b : String × α) => a.1 ≠ b.1) (sortByKey l₁) :=
    List.pairwise_map.mp hnd₁
  have hne₂ : List.Pairwise (fun (a b : String × α) => a.1 ≠ b.1) (sortByKey l₂) :=
    List.pairwise_map.mp hnd₂
  have hst₁ : List.Pairwise (fun (a b : String × α) => a.1 < b.1) (sortByKey l₁) :=
    (hs₁.and hne₁).imp (fun hab => lt_of_le_of_ne hab.1 hab.2)
  have hst₂ : List.Pairwise (fun (a b : String × α) => a.1 < b.1) (sortByKey l₂) :=
    (hs₂.and hne₂).imp (fun hab => lt_of_le_of_ne hab.1 hab.2)
  exact List.eq_of_perm_of_sorted hp hst₁ hst₂

/-- `bindParams` only touches the variable scope: the log buffer and the
observation traces are untouched whether it succeeds or fails. -/
theorem bindParams_state (ps : List (String × HostVal)) (s : EffState) :
    (bindParams ps s).2.logs = s.logs ∧ (bindParams ps s).2.queries = s.queries ∧
      (bindParams ps s).2.sunk = s.sunk := by
  induction ps generalizing s with
  | nil => exact ⟨rfl, rfl, rfl⟩
  | cons kv rest ih =>
    obtain ⟨key, hv⟩ := kv
    simp only [bindParams]
    cases hnv : NewValue hv with
    | error e => exact ⟨rfl, rfl, rfl⟩
    | ok val =>
      cases hvn : isValidVarName (normalizeParamName key) with
      | error e => exact ⟨rfl, rfl, rfl⟩
      | ok u =>
        exact ih _

/-- If some entry of the list has an unconvertible value or a malformed
normalized name, `bindParams` fails (whatever the state). -/
theorem bindParams_fails (ps : List (String × HostVal)) (kv : String × HostVal)
    (hm : kv ∈ ps)
    (hbad : (∃ e, NewValue kv.2 = Except.error e) ∨
            (∃ e, isValidVarName (normalizeParamName kv.1) = Except.error e))
    (s : EffState) : ∃ e, (bindParams ps s).1 = Except.error e := by
  induction ps generalizing s with
  | nil => cases hm
  | cons hd rest ih =>
    obtain ⟨key, hv⟩ := hd
    simp only [bindParams]
    cases hnv : NewValue hv with
    | error e => exact ⟨e, rfl⟩
    | ok val =>
      cases hvn : isValidVarName (normalizeParamName key) with
      | error e => exact ⟨e, rfl⟩
      | ok u =>
        rcases List.mem_cons.mp hm with heq | hm'
        · exfalso
          rcases hbad with ⟨e, hb⟩ | ⟨e, hb⟩
          · rw [heq] at hb
            simp only at hb
            rw [hnv] at hb
            cases hb
          · rw [heq] at hb
            simp only at hb
            rw [hvn] at hb
            cases hb
        · exact ih hm' _

/-- `baseInterpreter.call` restores the caller's log buffer and scope: the
per-call execution context uses its own fresh buffers. -/
theorem call_outer_state (i : baseInterpreter) (db : Db) (ns act : String)
    (args : List HostVal) (resultFn : Option (CommonRow → M Unit)) (toplevel : Bool)
    (s : EffState) :
    ((i.call db ns act args resultFn toplevel) s).2.logs = s.logs ∧
      ((i.call db ns act args resultFn toplevel) s).2.vars = s.vars := by
  constructor
  all_goals
    unfold baseInterpreter.call invokeExec
    simp only [M.bind_apply]
    repeat' split
    all_goals try rfl
    all_goals
      rename_i heq
      split at heq <;> cases heq <;> rfl

/-- Resolution of a `Function`-typed executable makes `call` fail with the
cannot-be-called-directly condition before converting arguments or invoking
the function: the result and the final state are independent of the
executable's `Func` and of the arguments. -/
theorem call_function_typed_rejected (i : baseInterpreter) (db : Db) (ns act : String)
    (args : List HostVal) (resultFn : Option (CommonRow → M Unit)) (toplevel : Bool)
    (s : EffState) (nsObj : Namespace) (ex : executable)
    (ham : db.accessModer = true)
    (hns : alLookup i.namespaces (strToLower (if ns = "" then DefaultNamespace else ns)) = some nsObj)
    (hact : alLookup nsObj.availableFunctions (strToLower act) = some ex)
    (htyp : ex.«Type» = executableType.function) :
    i.call db ns act args resultFn toplevel s =
      (Except.error (EngineErr.cannotCallDirectly (strToLower act)), s) := by
  simp only [baseInterpreter.call, newExecCtx, ham, Bool.not_true, Bool.false_eq_true,
    if_false, hns, hact, htyp]

/-- C1: whenever the executable resolved by `call` is `Function`-typed, the
call fails with the cannot-be-called-directly condition (a constructor
distinct from `unknownAction`), the state is unchanged, and the result is
independent of the executable's function and of the arguments — so the
function is never invoked. -/
theorem C1_function_typed_cannot_be_called (i : baseInterpreter) (db : Db) (ns act : String)
    (args : List HostVal) (resultFn : Option (CommonRow → M Unit)) (toplevel : Bool)
    (s : EffState) (nsObj : Namespace) (ex : executable)
    (ham : db.accessModer = true)
    (hns : alLookup i.namespaces (strToLower (if ns = "" then DefaultNamespace else ns)) = some nsObj)
    (hact : alLookup nsObj.availableFunctions (strToLower act) = some ex)
    (htyp : ex.«Type» = executableType.function) :
    i.call db ns act args resultFn toplevel s =
      (Except.error (EngineErr.cannotCallDirectly (strToLower act)), s) :=
  call_function_typed_rejected i db ns act args resultFn toplevel s nsObj ex ham hns hact htyp

/-- C1 witness: calling the `Function`-typed built-in `abs` directly fails
with the cannot-be-called-directly condition. -/
theorem C1_witness :
    cInterp.call cDbRW "main" "abs" [HostVal.hInt 3] (some observeSink) true s0 =
      (Except.error (EngineErr.cannotCallDirectly "abs"), s0) :=
  C1_function_typed_cannot_be_called cInterp cDbRW "main" "abs" [HostVal.hInt 3]
    (some observeSink) true s0 mainNs absExec rfl rfl rfl rfl

/-- C2: `call` replaces an empty namespace with the default namespace,
lower-cases both namespace and action before lookup (calls agree whenever the
normalized names agree), fails with the namespace-not-found condition when
the normalized namespace is absent (for every action — namespace resolution
comes first), fails with the distinct unknown-action condition when the
namespace exists but the action does not, and the two conditions are
distinct. -/
theorem C2_call_resolution (i : baseInterpreter) (db : Db) (ns ns₂ act act₂ : String)
    (args : List HostVal) (resultFn : Option (CommonRow → M Unit)) (toplevel : Bool)
    (s : EffState) :
    (i.call db "" act args resultFn toplevel = i.call db DefaultNamespace act args resultFn toplevel)
    ∧ (strToLower (if ns = "" then DefaultNamespace else ns) = strToLower (if ns₂ = "" then DefaultNamespace else ns₂) →
        strToLower act = strToLower act₂ →
        i.call db ns act args resultFn toplevel = i.call db ns₂ act₂ args resultFn toplevel)
    ∧ (db.accessModer = true →
        alLookup i.namespaces (strToLower (if ns = "" then DefaultNamespace else ns)) = none →
        i.call db ns act args resultFn toplevel s =
          (Except.error (EngineErr.namespaceNotFound (strToLower (if ns = "" then DefaultNamespace else ns))), s))
    ∧ (∀ nsObj : Namespace, db.accessModer = true →
        alLookup i.namespaces (strToLower (if ns = "" then DefaultNamespace else ns)) = some nsObj →
        alLookup nsObj.availableFunctions (strToLower act) = none →
        i.call db ns act args resultFn toplevel s =
          (Except.error (EngineErr.unknownAction (strToLower act) (strToLower (if ns = "" then DefaultNamespace else ns))), s))
    ∧ (∀ a n m, EngineErr.unknownAction a n ≠ EngineErr.namespaceNotFound m) := by
  refine ⟨?_, ?_, ?_, ?_, ?_⟩
  · rfl
  · intro h1 h2
    simp only [baseInterpreter.call, h1, h2]
  · intro ham hlk
    simp only [baseInterpreter.call, newExecCtx, ham, Bool.not_true, Bool.false_eq_true,
      if_false, hlk]
  · intro nsObj ham hns hact
    simp only [baseInterpreter.call, newExecCtx, ham, Bool.not_true, Bool.false_eq_true,
      if_false, hns, hact]
  · intro a n m h
    cases h

/-- C2 witness: the four resolution behaviours at concrete inputs. -/
theorem C2_witness :
    (cInterp.call cDbRW "" "logtwo" [] none true = cInterp.call cDbRW "main" "logtwo" [] none true)
    ∧ (cInterp.call cDbRW "MAIN" "LogTwo" [] none true = cInterp.call cDbRW "main" "logtwo" [] none true)
    ∧ (cInterp.call cDbRW "nosuch" "logtwo" [] none true s0 =
        (Except.error (EngineErr.namespaceNotFound "nosuch"), s0))
    ∧ (cInterp.call cDbRW "main" "missing" [] none true s0 =
        (Except.error (EngineErr.unknownAction "missing" "main"), s0)) := by
  refine ⟨?_, ?_, ?_, ?_⟩
  · exact (C2_call_resolution cInterp cDbRW "x" "x" "logtwo" "logtwo" [] none true s0).1
  · exact (C2_call_resolution cInterp cDbRW "MAIN" "main" "LogTwo" "logtwo" [] none true s0).2.1 rfl rfl
  · exact (C2_call_resolution cInterp cDbRW "nosuch" "x" "logtwo" "x" [] none true s0).2.2.1 rfl rfl
  · exact (C2_call_resolution cInterp cDbRW "main" "x" "missing" "x" [] none true s0).2.2.2.1 mainNs rfl rfl rfl

/-- C10: a nil row sink is replaced by a no-op sink in both `call` and
`execute`: the invocation is exactly the invocation with a sink that ignores
every row (same outcome, no nil dereference — the nil case never reaches the
engine body). -/
theorem C10_nil_sink_noop (i : baseInterpreter)
    (pparse : String → Except String (List Stmt)) (db : Db) (ns act statement : String)
    (args : List HostVal) (params : List (String × HostVal)) (toplevel : Bool) :
    (i.call db ns act args none toplevel =
      i.call db ns act args (some (fun _ => pure ())) toplevel)
    ∧ (i.execute pparse db statement params none toplevel =
        i.execute pparse db statement params (some (fun _ => pure ())) toplevel) :=
  ⟨rfl, rfl⟩

/-- C9: the concurrency wrapper aborts (before reaching the engine, with the
state untouched) when the database handle does not expose an access mode;
`ReadOnly` acquires the shared lock and any other mode the exclusive lock;
shared/shared is the only compatible pair, so an exclusive (non-`ReadOnly`)
call never overlaps any other call. -/
theorem C9_lock_discipline (t : ThreadSafeInterpreter)
    (pparse : String → Except String (List Stmt)) (db : Db) (ns act statement : String)
    (args : List HostVal) (params : List (String × HostVal))
    (resultFn : Option (CommonRow → M Unit)) (s : EffState) :
    (db.accessModer = false →
      t.Call db ns act args resultFn s = (Except.error EngineErr.notAccessModer, s)
      ∧ t.Execute pparse db statement params resultFn s = (Except.error EngineErr.notAccessModer, s))
    ∧ (db.accessModer = true → db.accessMode = AccessMode.readOnly →
        ThreadSafeInterpreter.lock db = Except.ok LockKind.shared)
    ∧ (db.accessModer = true → db.accessMode ≠ AccessMode.readOnly →
        ThreadSafeInterpreter.lock db = Except.ok LockKind.exclusive)
    ∧ (locksCompatible LockKind.shared LockKind.shared = true)
    ∧ (∀ k, locksCompatible LockKind.exclusive k = false ∧
        locksCompatible k LockKind.exclusive = false) := by
  refine ⟨?_, ?_, ?_, rfl, ?_⟩
  · intro ham
    constructor
    · simp only [ThreadSafeInterpreter.Call, ThreadSafeInterpreter.lock, ham, Bool.not_false,
        if_true]
    · simp only [ThreadSafeInterpreter.Execute, ThreadSafeInterpreter.lock, ham, Bool.not_false,
        if_true]
  · intro ham hro
    simp [ThreadSafeInterpreter.lock, ham, hro]
  · intro ham hro
    simp [ThreadSafeInterpreter.lock, ham, hro]
  · intro k
    cases k <;> exact ⟨rfl, rfl⟩

/-- C9 witness: the wrapper's behaviour at the three concrete handles. -/
theorem C9_witness :
    (ThreadSafeInterpreter.Call ⟨cInterp⟩ cDbNoAM "main" "logtwo" [] none s0 =
      (Except.error EngineErr.notAccessModer, s0))
    ∧ ThreadSafeInterpreter.lock cDbRO = Except.ok LockKind.shared
    ∧ ThreadSafeInterpreter.lock cDbRW = Except.ok LockKind.exclusive
    ∧ locksCompatible LockKind.exclusive LockKind.shared = false := by
  refine ⟨?_, ?_, ?_, ?_⟩
  · exact ((C9_lock_discipline ⟨cInterp⟩ (fun _ => Except.ok []) cDbNoAM "main" "logtwo" ""
      [] [] none s0).1 rfl).1
  · exact (C9_lock_discipline ⟨cInterp⟩ (fun _ => Except.ok []) cDbRO "main" "logtwo" ""
      [] [] none s0).2.1 rfl rfl
  · exact (C9_lock_discipline ⟨cInterp⟩ (fun _ => Except.ok []) cDbRW "main" "logtwo" ""
      [] [] none s0).2.2.1 rfl (by decide)
  · exact ((C9_lock_discipline ⟨cInterp⟩ (fun _ => Except.ok []) cDbRW "main" "logtwo" ""
      [] [] none s0).2.2.2.2 LockKind.shared).1

/-- The variable-name acceptance condition exactly as the spec sentence
states it: begins with the sigil, the remainder contains only
letters/digits/underscores, and the remainder does not exceed the maximum
identifier length (spec-side definition, kept for comparison with the
source-derived `isValidVarName`). -/
def specVarNameCond (s : String) : Bool :=
  strHasDollarSigil s && (strDropSigil s).data.all isIdentTailChar &&
    decide ((strDropSigil s).length ≤ MAX_IDENT_NAME_LENGTH)

/-- C6 counterexample: `"$1x"` (and `"$"`) satisfy all three of the spec's
conditions, yet the validator rejects them — the identifier regexp further
requires a nonempty remainder beginning with a letter. -/
theorem C6_counterexample :
    specVarNameCond "$1x" = true ∧ isValidVarName "$1x" ≠ Except.ok () ∧
      specVarNameCond "$" = true ∧ isValidVarName "$" ≠ Except.ok () := by
  refine ⟨rfl, ?_, rfl, ?_⟩
  · intro h
    exact Except.noConfusion ((rfl :
      (Except.error (EngineErr.invalidVarName
        "variable name must only contain letters, numbers, and underscores") :
        Except EngineErr Unit) = isValidVarName "$1x").trans h)
  · intro h
    exact Except.noConfusion ((rfl :
      (Except.error (EngineErr.invalidVarName
        "variable name must only contain letters, numbers, and underscores") :
        Except EngineErr Unit) = isValidVarName "$").trans h)

/-- The amended acceptance condition: begins with the sigil, the remainder is
nonempty, starts with a letter, continues with only letters/digits/
underscores, and does not exceed the maximum identifier length. -/
def amendedVarNameCond (s : String) : Bool :=
  strHasDollarSigil s &&
    (match (strDropSigil s).data with
     | [] => false
     | c :: cs => isIdentHeadChar c && cs.all isIdentTailChar) &&
    decide ((strDropSigil s).length ≤ MAX_IDENT_NAME_LENGTH)

/-- C6 (amended): the validator accepts a string exactly when it begins with
the `$` sigil, the remainder is a nonempty letter-led identifier of
letters/digits/underscores, and the remainder does not exceed the maximum
identifier length. -/
theorem C6_amended_validator_characterization (s : String) :
    isValidVarName s = Except.ok () ↔ amendedVarNameCond s = true := by
  have hm : (match (strDropSigil s).data with
      | [] => false
      | c :: cs => isIdentHeadChar c && cs.all isIdentTailChar) =
      identRegexpMatch (strDropSigil s) := rfl
  simp only [isValidVarName, amendedVarNameCond, hm]
  cases h1 : strHasDollarSigil s
  · simp
  · cases h2 : identRegexpMatch (strDropSigil s)
    · simp
    · by_cases h3 : (strDropSigil s).length > MAX_IDENT_NAME_LENGTH
      · simp only [h3, if_true, Bool.not_true, Bool.false_eq_true, if_false]
        constructor
        · intro h
          cases h
        · intro h
          exfalso
          have hlt := Nat.not_le.mpr h3
          simp at h
          exact hlt h
      · simp only [h3, Bool.not_true, Bool.false_eq_true, if_false]
        have hle : (strDropSigil s).length ≤ MAX_IDENT_NAME_LENGTH := Nat.not_lt.mp h3
        simp [hle]

/-- C7: in the extension-load step of `NewInterpreter`, when the alias
already names a previously-loaded namespace, the alias maps to the merged
namespace; the merged namespace maps every name present in the
previously-loaded executable set to the previously-loaded entry; and the
merged table set is exactly the previously-loaded table set. -/
theorem C7_extension_merge (nss : List (String × Namespace)) (ac : accessController)
    (aliasName : String) (extNs existing : Namespace)
    (hex : alLookup nss aliasName = some existing)
    (hnd : (existing.availableFunctions.map Prod.fst).Nodup) :
    alLookup (loadExtensionStep nss ac aliasName extNs).1 aliasName =
      some (mergeExistingNamespace extNs existing)
    ∧ (∀ k v, alLookup existing.availableFunctions k = some v →
        alLookup (mergeExistingNamespace extNs existing).availableFunctions k = some v)
    ∧ (mergeExistingNamespace extNs existing).tables = existing.tables := by
  refine ⟨?_, ?_, rfl⟩
  · simp only [loadExtensionStep, hex]
    exact alLookup_alInsert_self _ _ _
  · intro k v hv
    exact alLookup_foldl_insert_of_mem _ _ k v hnd hv

/-- A previously-loaded namespace fixture (one action, one table). -/
def wExistingNs : Namespace :=
  { availableFunctions := [("acta", logTwoExec)]
    tables := [("t1", { name := "t1", columns := ["c1"] })]
    namespaceType := namespaceTypeUser
    methods := [] }

/-- An extension-provided namespace fixture under the same alias. -/
def wExtNs : Namespace :=
  { availableFunctions := [("acta", absExec), ("actb", absExec)]
    tables := [("t2", { name := "t2", columns := [] })]
    namespaceType := namespaceTypeExtension
    methods := [("acta", absExec), ("actb", absExec)] }

/-- C7 witness: the previously-loaded action wins the collision and the
previously-loaded tables are carried forward verbatim. -/
theorem C7_witness :
    alLookup (loadExtensionStep [("ext", wExistingNs)] { registered := ["ext"] } "ext" wExtNs).1
        "ext" = some (mergeExistingNamespace wExtNs wExistingNs)
    ∧ alLookup (mergeExistingNamespace wExtNs wExistingNs).availableFunctions "acta" =
        some logTwoExec
    ∧ (mergeExistingNamespace wExtNs wExistingNs).tables = wExistingNs.tables := by
  have h := C7_extension_merge [("ext", wExistingNs)] { registered := ["ext"] } "ext" wExtNs
    wExistingNs rfl (by decide)
  exact ⟨h.1, h.2.1 "acta" logTwoExec rfl, h.2.2⟩

theorem NewZeroValue_ok (t : DataType) : ∃ v, NewZeroValue t = Except.ok v := by
  cases t <;> exact ⟨_, rfl⟩

/-- C4: for a scalar built-in other than `notice`, once argument validation
and formatting succeed the adapter executes the formatted `SELECT` expression
(recorded in the query trace); a row count other than exactly one fails with
the fatal unexpected-row-count (node bug) condition, and a row count of
exactly one makes the adapter behave as a single invocation of the row sink
with the one-column row holding a single `Value` of the descriptor-computed
return type. -/
theorem C4_scalar_adapter_row_contract (funcName : String) (fd : ScalarFunctionDefinition)
    (ectx : ExecCtxInfo) (args : List Value) (fn : row → M Unit) (retTyp : DataType)
    (fstr : String) (s : EffState)
    (hname : funcName ≠ "notice")
    (hval : fd.ValidateArgsFunc (args.map Value.type) = Except.ok retTyp)
    (hfmt : fd.PGFormatFunc (paramPlaceholders args.length) = Except.ok fstr) :
    (∀ n, ectx.db.queryRes ("SELECT " ++ fstr ++ ";") = Except.ok n → n ≠ 1 →
      (funcDefToExecutable funcName fd).Func ectx args fn s =
        (Except.error (EngineErr.rowCount n),
          { s with queries := s.queries ++ ["SELECT " ++ fstr ++ ";"] }))
    ∧ (ectx.db.queryRes ("SELECT " ++ fstr ++ ";") = Except.ok 1 →
        (funcDefToExecutable funcName fd).Func ectx args fn s =
          fn { columns := [funcName]
               Values := [{ type := retTyp,
                            raw := ectx.db.queryScanRaw ("SELECT " ++ fstr ++ ";") }] }
            { s with queries := s.queries ++ ["SELECT " ++ fstr ++ ";"] }) := by
  obtain ⟨zv, hzv⟩ := NewZeroValue_ok retTyp
  constructor
  · intro n hq hne
    simp only [funcDefToExecutable, hval, if_neg hname, hzv, hfmt, hq, if_pos hne]
  · intro hq
    simp only [funcDefToExecutable, hval, if_neg hname, hzv, hfmt, hq]
    simp

/-- C4 witness: the concrete `abs` built-in at one-row and two-row database
handles. -/
theorem C4_witness :
    ((funcDefToExecutable "abs" cAbsDef).Func
        { db := cDbTwoRows, scopeNamespace := "main", isTopLevel := true, canMutateState := true }
        [{ type := DataType.intT, raw := RawVal.intV (-5) }] obsRowSink s0 =
      (Except.error (EngineErr.rowCount 2), { s0 with queries := ["SELECT abs($1);"] }))
    ∧ ((funcDefToExecutable "abs" cAbsDef).Func
        { db := cDbRW, scopeNamespace := "main", isTopLevel := true, canMutateState := true }
        [{ type := DataType.intT, raw := RawVal.intV (-5) }] obsRowSink s0 =
      obsRowSink { columns := ["abs"], Values := [{ type := DataType.intT, raw := RawVal.intV 7 }] }
        { s0 with queries := ["SELECT abs($1);"] }) := by
  constructor
  · exact (C4_scalar_adapter_row_contract "abs" cAbsDef
      { db := cDbTwoRows, scopeNamespace := "main", isTopLevel := true, canMutateState := true }
      [{ type := DataType.intT, raw := RawVal.intV (-5) }] obsRowSink DataType.intT "abs($1)" s0
      (by decide) rfl rfl).1 2 rfl (by decide)
  · exact (C4_scalar_adapter_row_contract "abs" cAbsDef
      { db := cDbRW, scopeNamespace := "main", isTopLevel := true, canMutateState := true }
      [{ type := DataType.intT, raw := RawVal.intV (-5) }] obsRowSink DataType.intT "abs($1)" s0
      (by decide) rfl rfl).2 rfl

/-- C3 counterexample: `call(ctx, db, "main", "notice", ["hello"], sink)`
does not log and return `Logs = ["hello"]`; it fails with the
cannot-be-called-directly condition, because the `notice` executable is
`Function`-typed. -/
theorem C3_counterexample :
    cInterp.call cDbRW "main" "notice" [HostVal.hText "hello"] (some observeSink) true s0 =
      (Except.error (EngineErr.cannotCallDirectly "notice"), s0) :=
  call_function_typed_rejected cInterp cDbRW "main" "notice" [HostVal.hText "hello"]
    (some observeSink) true s0 mainNs noticeExec rfl rfl rfl rfl

/-- C3 (amended): when the `notice` executable's function is invoked (as it
is from inside statement expressions) with a single string argument whose
type passes the descriptor's validation, the argument is appended to the
execution context's log buffer, no query is executed, and no row is emitted
(the sink is never invoked — the result is independent of it); a direct
top-level `call` of a namespace's `notice` fails with the
cannot-be-called-directly condition. -/
theorem C3_notice_appends_log (fd : ScalarFunctionDefinition) (ectx : ExecCtxInfo) (v : Value)
    (str : String) (fn : row → M Unit) (retTyp : DataType) (s : EffState)
    (hraw : v.raw = RawVal.textV str)
    (hval : fd.ValidateArgsFunc [v.type] = Except.ok retTyp) :
    ((funcDefToExecutable "notice" fd).Func ectx [v] fn s =
      (Except.ok (), { s with logs := s.logs ++ [str] }))
    ∧ (∀ (i : baseInterpreter) (db : Db) (ns act : String) (hostArgs : List HostVal)
        (resultFn : Option (CommonRow → M Unit)) (toplevel : Bool) (nsObj : Namespace),
        db.accessModer = true →
        alLookup i.namespaces (strToLower (if ns = "" then DefaultNamespace else ns)) = some nsObj →
        alLookup nsObj.availableFunctions (strToLower act) = some (funcDefToExecutable "notice" fd) →
        i.call db ns act hostArgs resultFn toplevel s =
          (Except.error (EngineErr.cannotCallDirectly (strToLower act)), s)) := by
  constructor
  · obtain ⟨t, raw⟩ := v
    simp only at hraw
    cases hraw
    simp only [funcDefToExecutable, List.map, hval]
    simp
  · intro i db ns act hostArgs resultFn toplevel nsObj ham hns hact
    exact call_function_typed_rejected i db ns act hostArgs resultFn toplevel s nsObj _
      ham hns hact rfl

/-- C3 witness: the amended behaviour at concrete inputs — invoking the
`notice` function appends `"hello"` to the log buffer with no query and no
row, and a direct `call` of `notice` is rejected. -/
theorem C3_witness :
    ((funcDefToExecutable "notice" cNoticeDef).Func
        { db := cDbRW, scopeNamespace := "main", isTopLevel := true, canMutateState := true }
        [{ type := DataType.textT, raw := RawVal.textV "hello" }] obsRowSink s0 =
      (Except.ok (), { s0 with logs := ["hello"] }))
    ∧ cInterp.call cDbRW "main" "notice" [HostVal.hText "x"] none true s0 =
        (Except.error (EngineErr.cannotCallDirectly "notice"), s0) := by
  have h := C3_notice_appends_log cNoticeDef
    { db := cDbRW, scopeNamespace := "main", isTopLevel := true, canMutateState := true }
    { type := DataType.textT, raw := RawVal.textV "hello" } "hello" obsRowSink DataType.textT s0
    rfl rfl
  exact ⟨h.1, h.2 cInterp cDbRW "main" "notice" [HostVal.hText "x"] none true mainNs rfl rfl rfl⟩

/-- C8: the log buffer returned by a call is the full accumulated buffer of
the invocation's execution context.  First conjunct: a nested call through
the recursive (extension) handle appends exactly the nested call's complete
`CallResult.Logs` to the invoking call's buffer, in order, at the point the
nested call returns.  Second conjunct: a call that invokes an executable
returns `CallResult.Logs` equal to the executable's entire final buffer
(started fresh for the invocation) — not just the lines of any particular
layer. -/
theorem C8_logs_accumulate_across_nested_calls (i : baseInterpreter) (db : Db)
    (ns act : String) (args : List HostVal) (resultFn : Option (CommonRow → M Unit))
    (toplevel : Bool) (s : EffState) :
    (∀ res s', (recursiveInterpreter.Call ⟨i⟩ db ns act args resultFn) s = (Except.ok res, s') →
        s'.logs = s.logs ++ res.Logs)
    ∧ (∀ (nsObj : Namespace) (ex : executable) (argVals : List Value) (s₁ : EffState) (u : Unit),
        db.accessModer = true →
        alLookup i.namespaces (strToLower (if ns = "" then DefaultNamespace else ns)) = some nsObj →
        alLookup nsObj.availableFunctions (strToLower act) = some ex →
        (ex.«Type» = executableType.action ∨ ex.«Type» = executableType.precompile) →
        convertArgs args = Except.ok argVals →
        ex.Func { db := db
                  scopeNamespace := strToLower (if ns = "" then DefaultNamespace else ns)
                  isTopLevel := toplevel
                  canMutateState := decide (db.accessMode = AccessMode.readWrite) }
            argVals (fun r => (resultFn.getD (fun _ => pure ())) (rowToCommonRow r))
            { s with logs := [], vars := [] } = (Except.ok u, s₁) →
        i.call db ns act args resultFn toplevel s =
          (Except.ok { Logs := s₁.logs }, { s₁ with logs := s.logs, vars := s.vars })) := by
  constructor
  · intro res s' hcall
    have houter := (call_outer_state i db ns act args resultFn false s).1
    simp only [recursiveInterpreter.Call, M.bind_apply] at hcall
    rcases hbc : (i.call db ns act args resultFn false) s with ⟨r, t⟩
    rw [hbc] at hcall houter
    cases r with
    | error e => exact absurd hcall (by simp)
    | ok res0 =>
      simp only [appendLogs, M.bind_apply, M.pure_apply] at hcall
      cases hcall
      simp only at houter
      simp [houter]
  · intro nsObj ex argVals s₁ u ham hns hact htyp hconv hfunc
    rcases htyp with htyp | htyp
    all_goals
      simp only [baseInterpreter.call, newExecCtx, ham, Bool.not_true, Bool.false_eq_true,
        if_false, hns, hact, htyp, hconv, M.bind_apply, invokeExec, hfunc]
    all_goals rfl

/-- C8 witness: a nested recursive call of the `logtwo` action appends its
two log lines to the invoking buffer in order. -/
theorem C8_witness :
    ((recursiveInterpreter.Call ⟨cInterp⟩ cDbRW "main" "logtwo" [] none) s0).2.logs =
      s0.logs ++ ["b1", "b2"] :=
  (C8_logs_accumulate_across_nested_calls cInterp cDbRW "main" "logtwo" [] none true s0).1
    { Logs := ["b1", "b2"] } { logs := ["b1", "b2"], vars := [], queries := [], sunk := [] } rfl

/-- If the parameter-binding loop fails, `execute` fails with that error and
leaves the state exactly as it was: no statement has executed and the sink
has observed no row. -/
theorem execute_bindparams_error (i : baseInterpreter)
    (pparse : String → Except String (List Stmt)) (db : Db) (statement : String)
    (params : List (String × HostVal)) (resultFn : Option (CommonRow → M Unit))
    (toplevel : Bool) (ast : List Stmt) (e : EngineErr) (s : EffState)
    (hp : pparse statement = Except.ok ast) (hne : ast ≠ [])
    (ham : db.accessModer = true)
    (hb : (bindParams (sortByKey params) { s with logs := [], vars := [] }).1 = Except.error e) :
    i.execute pparse db statement params resultFn toplevel s = (Except.error e, s) := by
  obtain ⟨hl, hq, hsk⟩ := bindParams_state (sortByKey params) { s with logs := [], vars := [] }
  have hemp : ast.isEmpty = false := by
    cases ast with
    | nil => exact absurd rfl hne
    | cons a l => rfl
  simp only [baseInterpreter.execute, hp, hemp, Bool.false_eq_true, if_false, newExecCtx, ham,
    Bool.not_true, withFreshCtx, M.bind_apply]
  rcases hrun : bindParams (sortByKey params) { s with logs := [], vars := [] } with ⟨r, s₁⟩
  rw [hrun] at hb hl hq hsk
  simp only at hb hl hq hsk
  cases r with
  | ok u => exact absurd hb (by simp)
  | error e' =>
    cases hb
    obtain ⟨sl, sv, sq, sk⟩ := s
    simp only at hq hsk
    simp [hq, hsk]

/-- C5: the parameter map of `execute` is bound in sorted-key order — two
permutations of the same parameter entries (distinct keys, as in a Go map)
give identical executions; if the binding loop fails, the whole call fails
with that error before any statement executes and the sink observes no row
(final state unchanged); and any entry whose host value fails conversion or
whose normalized key fails validation makes the whole call fail that way. -/
theorem C5_execute_binds_sorted_and_fails_early (i : baseInterpreter) (db : Db)
    (statement : String) (params params₂ : List (String × HostVal))
    (resultFn : Option (CommonRow → M Unit)) (toplevel : Bool) :
    (params.Perm params₂ → (params.map Prod.fst).Nodup →
      ∀ pparse, i.execute pparse db statement params resultFn toplevel =
        i.execute pparse db statement params₂ resultFn toplevel)
    ∧ (∀ pparse ast e s, pparse statement = Except.ok ast → ast ≠ [] →
        db.accessModer = true →
        (bindParams (sortByKey params) { s with logs := [], vars := [] }).1 = Except.error e →
        i.execute pparse db statement params resultFn toplevel s = (Except.error e, s))
    ∧ (∀ pparse ast s kv, pparse statement = Except.ok ast → ast ≠ [] →
        db.accessModer = true → kv ∈ params →
        ((∃ e, NewValue kv.2 = Except.error e) ∨
          (∃ e, isValidVarName (normalizeParamName kv.1) = Except.error e)) →
        ∃ e, i.execute pparse db statement params resultFn toplevel s = (Except.error e, s)) := by
  refine ⟨?_, ?_, ?_⟩
  · intro hperm hnd pparse
    have hs := sortByKey_eq_of_perm params params₂ hperm hnd
    simp only [baseInterpreter.execute, hs]
  · intro pparse ast e s hp hne ham hb
    exact execute_bindparams_error i pparse db statement params resultFn toplevel ast e s
      hp hne ham hb
  · intro pparse ast s kv hp hne ham hmem hbad
    have hmem' : kv ∈ sortByKey params := by
      unfold sortByKey
      exact (List.mem_insertionSort _).mpr hmem
    obtain ⟨e, hb⟩ := bindParams_fails (sortByKey params) kv hmem' hbad
      { s with logs := [], vars := [] }
    exact ⟨e, execute_bindparams_error i pparse db statement params resultFn toplevel ast e s
      hp hne ham hb⟩

/-- A no-op planned statement used by the `execute` witness. -/
def cStmtNoop : Stmt := fun _ _ => pure ()

/-- A parser stub yielding one no-op statement for any text. -/
def cParse : String → Except String (List Stmt) := fun _ => Except.ok [cStmtNoop]

/-- C5 witness: the parameter name `"bad name"` fails the whole `execute`
before any statement runs (state unchanged, observing sink untouched), and
two orderings of the same parameter map execute identically. -/
theorem C5_witness :
    (cInterp.execute cParse cDbRW "SELECT 1;" [("bad name", HostVal.hInt 1)]
        (some observeSink) true s0 =
      (Except.error (EngineErr.invalidVarName
        "variable name must only contain letters, numbers, and underscores"), s0))
    ∧ cInterp.execute cParse cDbRW "SELECT 1;"
        [("a", HostVal.hInt 1), ("b", HostVal.hInt 2)] none true =
      cInterp.execute cParse cDbRW "SELECT 1;"
        [("b", HostVal.hInt 2), ("a", HostVal.hInt 1)] none true := by
  constructor
  · exact (C5_execute_binds_sorted_and_fails_early cInterp cDbRW "SELECT 1;"
      [("bad name", HostVal.hInt 1)] [] (some observeSink) true).2.1 cParse [cStmtNoop] _ s0
      rfl (List.cons_ne_nil _ _) rfl rfl
  · exact (C5_execute_binds_sorted_and_fails_early cInterp cDbRW "SELECT 1;"
      [("a", HostVal.hInt 1), ("b", HostVal.hInt 2)]
      [("b", HostVal.hInt 2), ("a", HostVal.hInt 1)] none true).1
      (List.Perm.swap _ _ _) (by decide) cParse
